import Mathlib

/-!
Verification of the SSE event-stream parsing and normalization component of the
Workflow-Engine-UI repository (file `src/lib/api.js`).

The source is JavaScript.  The embedding below models JS strings as `List Char`
(one entry per UTF-16-ish code point; all operations used by the parser are
per-character), JSON values produced by `JSON.parse` together with the JS value
`undefined` as the inductive `JSValue`, and the built-in `JSON.parse` as an
abstract oracle `parse : List Char → Option JSValue` (`none` models a parse
exception).  Theorems about the parser are stated for every oracle; concrete
scenario theorems instantiate the oracle with small lookup tables whose entries
are plain `JSON.parse` facts.

The two stream parsers under verification are the closure `parseSSEEvents`
inside `executeAgentWithLogs` (lines 176-300) and the closure `parseSSEEvents`
inside `executeWorkflowWithSSE` (lines 536-627).  Both are embedded separately,
mirroring their source line by line.
-/

/-- Model of a JavaScript value as produced by `JSON.parse`, extended with
`undefined` for the JS value `undefined` (the result of reading an absent property,
and a possible property value of the normalized payload object).  Object fields
are kept in insertion order, as JS objects do. -/
inductive JSValue where
  | undefined
  | null
  | bool (b : Bool)
  | num (n : Int)
  | str (s : List Char)
  | arr (elems : List JSValue)
  | obj (fields : List (List Char × JSValue))

/-- Lookup of a key in an object field list: first match wins (JS objects have
unique keys, so on real values there is at most one match). -/
def getField : List (List Char × JSValue) → List Char → Option JSValue
  | [], _ => none
  | (k, v) :: rest, key => if k == key then some v else getField rest key

/-- JS property access `v.key`: `undefined` when the key is absent or the value
is not an object.  (Named — non-index — access on arrays and strings yields
`undefined` for every key the parser uses, which is all this model needs.) -/
def getProp (v : JSValue) (key : List Char) : JSValue :=
  match v with
  | .obj fields =>
    match getField fields key with
    | some w => w
    | none => .undefined
  | _ => .undefined

/-- JS truthiness of a value (`if (x)`): `undefined`, `null`, `false`, `0` and
the empty string are falsy; every other value here is truthy. -/
def jsTruthy : JSValue → Bool
  | .undefined => false
  | .null => false
  | .bool b => b
  | .num n => n != 0
  | .str s => s != []
  | .arr _ => true
  | .obj _ => true

/-- JS `a || b`. -/
def jsOr (a b : JSValue) : JSValue :=
  if jsTruthy a then a else b

/-- JS strict equality `v === "s"` against a string literal. -/
def strictEqStr (v : JSValue) (s : List Char) : Bool :=
  match v with
  | .str t => t == s
  | _ => false

mutual

/-- String coercion of a JS array element during `Array.prototype.join`
(`undefined` and `null` become the empty string; used only through
`jsToString`). -/
def jsElemString : JSValue → List Char
  | .undefined => []
  | .null => []
  | .bool true => "true".toList
  | .bool false => "false".toList
  | .num n => (toString n).toList
  | .str s => s
  | .arr es => jsArrJoin es
  | .obj _ => "[object Object]".toList

/-- Comma join of the element coercions, as `Array.prototype.toString` does. -/
def jsArrJoin : List JSValue → List Char
  | [] => []
  | [v] => jsElemString v
  | v :: rest => jsElemString v ++ ',' :: jsArrJoin rest

end

/-- JS `String(v)` coercion, used where the source reads `typeMap[data.type]`
(property keys are string coercions) and `new Error(x).message`. -/
def jsToString : JSValue → List Char
  | .undefined => "undefined".toList
  | .null => "null".toList
  | .bool true => "true".toList
  | .bool false => "false".toList
  | .num n => (toString n).toList
  | .str s => s
  | .arr es => jsArrJoin es
  | .obj _ => "[object Object]".toList

/-- JS `String.prototype.startsWith` on the character-list model. -/
def startsWithL : List Char → List Char → Bool
  | [], _ => true
  | _ :: _, [] => false
  | p :: ps, c :: cs => p == c && startsWithL ps cs

/-- JS `String.prototype.trim` (whitespace stripped from both ends). -/
def jsTrim (s : List Char) : List Char :=
  ((s.dropWhile Char.isWhitespace).reverse.dropWhile Char.isWhitespace).reverse

/-- The opening-brace character, written by code point to keep the source text
free of literal braces. -/
def lbraceChar : Char := Char.ofNat 123

/-- The opening-bracket character. -/
def lbrackChar : Char := Char.ofNat 91

/-! ### Line reassembly (source lines 191-193 / 548-550)

`buffer += decoder.decode(value, ...); const lines = buffer.split('\n');
buffer = lines.pop() || '';` — `splitNl1 s` returns the complete
(newline-terminated) lines of `s` together with the trailing piece that is kept
as the new buffer. -/

/-- Split on every `'\n'`: the first component collects all pieces except the
last one (the complete lines), the second is the last piece (the new buffer).
Equals `(s.split('\n').slice(0, -1), s.split('\n').pop())` in the source. -/
def splitNl1 : List Char → List (List Char) × List Char
  | [] => ([], [])
  | c :: cs =>
    let r := splitNl1 cs
    if c = '\n' then ([] :: r.1, r.2)
    else
      match r.1 with
      | [] => ([], c :: r.2)
      | l :: ls => ((c :: l) :: ls, r.2)

/-- All complete lines processed over a whole chunked stream, in order: each
chunk is appended to the carried buffer, the complete lines are handed on, the
trailing piece becomes the next buffer.  On stream end (`done`) the remaining
buffer is dropped, exactly as the source `while` loop does. -/
def streamLines : List Char → List (List Char) → List (List Char)
  | _, [] => []
  | buf, ch :: chs =>
    let r := splitNl1 (buf ++ ch)
    r.1 ++ streamLines r.2 chs

/-- Reattach the terminating newline to each complete line (used to state that
`splitNl1` loses no text). -/
def joinLines (ls : List (List Char)) : List Char :=
  (ls.map (fun l => l ++ ['\n'])).flatten

/-! ### Event-type resolution and payload normalization (source lines 219-261 /
575-608) -/

/-- The fixed `typeMap` lookup table (source lines 230-237 / 585-592), as a
property lookup on its string key. -/
def typeMapLookup (key : List Char) : Option (List Char) :=
  if key == "thought".toList then some "thinking".toList
  else if key == "action".toList then some "action".toList
  else if key == "action_input".toList then some "action_input".toList
  else if key == "observation".toList then some "observation".toList
  else if key == "final_answer".toList then some "final_answer".toList
  else none

/-- Event-type resolution of the workflow-side parser (source lines 581-593):
`let eventType = currentEventType; if (eventType === 'message' && data.type)
eventType = typeMap[data.type] || data.type;`.  The result is a JS value: the
fallback branch can produce the raw non-string `data.type`. -/
def resolveWf (currentEventType : List Char) (data : JSValue) : JSValue :=
  if currentEventType == "message".toList && jsTruthy (getProp data "type".toList) then
    match typeMapLookup (jsToString (getProp data "type".toList)) with
    | some mapped => .str mapped
    | none => getProp data "type".toList
  else .str currentEventType

/-- The extra step of the agent-side parser only (source lines 242-244):
`if (eventType === 'action' && data.type === 'action_input') eventType =
'action_input';`. -/
def actionInputFixup (data : JSValue) (eventType : JSValue) : JSValue :=
  if strictEqStr eventType "action".toList &&
      strictEqStr (getProp data "type".toList) "action_input".toList then
    .str "action_input".toList
  else eventType

/-- Event-type resolution of the agent-side parser (source lines 226-244): the
workflow-side resolution followed by the action/action_input fixup. -/
def resolveAgent (currentEventType : List Char) (data : JSValue) : JSValue :=
  actionInputFixup data (resolveWf currentEventType data)

/-- Content extraction (source line 249 / 597): `data.content || data.answer ||
data.message || data.thought || data.action || data.observation || ''`. -/
def extractContent (data : JSValue) : JSValue :=
  jsOr (getProp data "content".toList)
    (jsOr (getProp data "answer".toList)
      (jsOr (getProp data "message".toList)
        (jsOr (getProp data "thought".toList)
          (jsOr (getProp data "action".toList)
            (jsOr (getProp data "observation".toList) (.str []))))))

/-- One property assignment in a JS object literal: an existing key keeps its
position and gets the new value (JS objects hold each key at most once, so
replacing the first occurrence is replacing the occurrence), a new key is
appended at the end. -/
def setField : List (List Char × JSValue) → List Char → JSValue → List (List Char × JSValue)
  | [], key, v => [(key, v)]
  | (k, w) :: rest, key, v =>
    if k == key then (key, v) :: rest else (k, w) :: setField rest key v

/-- Index-keyed fields produced by spreading an array (or string) into an
object literal. -/
def indexedFields : Nat → List JSValue → List (List Char × JSValue)
  | _, [] => []
  | i, v :: rest => ((toString i).toList, v) :: indexedFields (i + 1) rest

/-- JS object spread `...data` inside an object literal. -/
def spreadFields : JSValue → List (List Char × JSValue)
  | .obj fields => fields
  | .arr es => indexedFields 0 es
  | .str s => indexedFields 0 (s.map (fun c => .str [c]))
  | _ => []

/-- The `normalizedData` object literal (source lines 252-261 / 600-608):
spread of `data`, then `content: content || data.content` and the five
passthrough fields, each property assignment in source order.  An absent source
property is passed through as the JS value `undefined`, creating the property
with value `undefined` — distinct from leaving it out. -/
def normalizePayload (data : JSValue) : JSValue :=
  .obj (setField (setField (setField (setField (setField (setField
    (spreadFields data)
    "content".toList (jsOr (extractContent data) (getProp data "content".toList)))
    "agent_id".toList (getProp data "agent_id".toList))
    "agent_name".toList (getProp data "agent_name".toList))
    "timestamp".toList (getProp data "timestamp".toList))
    "type".toList (getProp data "type".toList))
    "metadata".toList (getProp data "metadata".toList))

/-- JS `String.prototype.includes` (substring occurrence test). -/
def containsSub (needle : List Char) : List Char → Bool
  | [] => startsWithL needle []
  | c :: cs => startsWithL needle (c :: cs) || containsSub needle cs

/-- The `Connected` / contains-"connect" test for a non-JSON data payload
(source line 208 / 564): `dataStr === 'Connected' ||
dataStr.toLowerCase().includes('connect')`. -/
def isConnectNotice (dataStr : List Char) : Bool :=
  dataStr == "Connected".toList ||
    containsSub "connect".toList (dataStr.map Char.toLower)

/-! ### Per-line frame processing -/

/-- One iteration of `for (const line of lines)` in the agent-side parser
(source lines 195-297).  Returns the new `currentEventType` and the list (empty
or singleton) of `(eventType, normalizedData)` pairs passed to `onEvent` for
this line.  Branches, in source order: an `event: ` line stores its trimmed
remainder; a `data: ` line with a non-empty trimmed payload either handles a
non-JSON payload (both the connection-notice case, line 210, and the skip case,
line 215, assign `currentEventType = 'message'` and `continue`), or parses the
payload and emits on success; every `data: ` path ends with `currentEventType =
'message'` (line 295, also reached when the payload is empty); any other line
leaves the state untouched. -/
def agentLineStep (parse : List Char → Option JSValue) (currentEventType : List Char)
    (line : List Char) : List Char × List (JSValue × JSValue) :=
  if startsWithL "event: ".toList line then
    (jsTrim (line.drop 7), [])
  else if startsWithL "data: ".toList line then
    let dataStr := jsTrim (line.drop 6)
    if dataStr != [] then
      if !startsWithL [lbraceChar] dataStr && !startsWithL [lbrackChar] dataStr then
        if isConnectNotice dataStr then
          ("message".toList, [])
        else
          ("message".toList, [])
      else
        match parse dataStr with
        | some data =>
          ("message".toList, [(resolveAgent currentEventType data, normalizePayload data)])
        | none => ("message".toList, [])
    else
      ("message".toList, [])
  else
    (currentEventType, [])

/-- One iteration of `for (const line of lines)` in the workflow-side parser
(source lines 552-624).  Identical to `agentLineStep` except that event-type
resolution omits the action/action_input fixup (the source block at lines
242-244 has no counterpart between lines 593 and 596). -/
def wfLineStep (parse : List Char → Option JSValue) (currentEventType : List Char)
    (line : List Char) : List Char × List (JSValue × JSValue) :=
  if startsWithL "event: ".toList line then
    (jsTrim (line.drop 7), [])
  else if startsWithL "data: ".toList line then
    let dataStr := jsTrim (line.drop 6)
    if dataStr != [] then
      if !startsWithL [lbraceChar] dataStr && !startsWithL [lbrackChar] dataStr then
        if isConnectNotice dataStr then
          ("message".toList, [])
        else
          ("message".toList, [])
      else
        match parse dataStr with
        | some data =>
          ("message".toList, [(resolveWf currentEventType data, normalizePayload data)])
        | none => ("message".toList, [])
    else
      ("message".toList, [])
  else
    (currentEventType, [])

/-- Process a list of complete lines with the agent-side parser, threading
`currentEventType` and collecting the `onEvent` pairs in emission order. -/
def agentRunLines (parse : List Char → Option JSValue) :
    List Char → List (List Char) → List Char × List (JSValue × JSValue)
  | cet, [] => (cet, [])
  | cet, l :: ls =>
    let s := agentLineStep parse cet l
    let r := agentRunLines parse s.1 ls
    (r.1, s.2 ++ r.2)

/-- Process a list of complete lines with the workflow-side parser. -/
def wfRunLines (parse : List Char → Option JSValue) :
    List Char → List (List Char) → List Char × List (JSValue × JSValue)
  | cet, [] => (cet, [])
  | cet, l :: ls =>
    let s := wfLineStep parse cet l
    let r := wfRunLines parse s.1 ls
    (r.1, s.2 ++ r.2)

/-- The whole agent-side `parseSSEEvents` loop (source lines 176-300) over a
sequence of decoded chunks: the final `(buffer, currentEventType)` state and
all `onEvent` pairs.  The trailing buffer is dropped when `done` arrives. -/
def agentRunChunks (parse : List Char → Option JSValue) :
    List Char → List Char → List (List Char) →
      (List Char × List Char) × List (JSValue × JSValue)
  | buf, cet, [] => ((buf, cet), [])
  | buf, cet, ch :: chs =>
    let sp := splitNl1 (buf ++ ch)
    let r := agentRunLines parse cet sp.1
    let rest := agentRunChunks parse sp.2 r.1 chs
    (rest.1, r.2 ++ rest.2)

/-- The whole workflow-side `parseSSEEvents` loop (source lines 536-627) over a
sequence of decoded chunks. -/
def wfRunChunks (parse : List Char → Option JSValue) :
    List Char → List Char → List (List Char) →
      (List Char × List Char) × List (JSValue × JSValue)
  | buf, cet, [] => ((buf, cet), [])
  | buf, cet, ch :: chs =>
    let sp := splitNl1 (buf ++ ch)
    let r := wfRunLines parse cet sp.1
    let rest := wfRunChunks parse sp.2 r.1 chs
    (rest.1, r.2 ++ rest.2)

/-- Agent-side line processing instrumented with the `onEvent` callback.  The
callback is modeled as a function returning whether it throws; the source wraps
the call in `try { onEvent(...) } catch (callbackError) { console.error(...) }`
(lines 277-281), so the loop continues unconditionally and each call is simply
recorded as `(eventType, payload, threw)`. -/
def agentRunLinesCalls (parse : List Char → Option JSValue)
    (onEvent : JSValue → JSValue → Bool) :
    List Char → List (List Char) → List Char × List (JSValue × JSValue × Bool)
  | cet, [] => (cet, [])
  | cet, l :: ls =>
    let s := agentLineStep parse cet l
    let r := agentRunLinesCalls parse onEvent s.1 ls
    (r.1, s.2.map (fun e => (e.1, e.2, onEvent e.1 e.2)) ++ r.2)

/-! ### Stream-open failure path of `executeWorkflowWithSSE` (direct mode,
source lines 682-714) -/

/-- The visible part of a `fetch` response: the HTTP status and the result of
`response.json()` — `some v` when the body parses as JSON value `v`, `none`
when `response.json()` rejects (non-JSON body). -/
structure FetchResponse where
  status : Nat
  jsonBody : Option JSValue

/-- The `Response.ok` accessor: status in the inclusive range 200-299. -/
def respOk (status : Nat) : Bool :=
  decide (200 ≤ status) && decide (status ≤ 299)

/-- The message of the error thrown on a non-ok response (source lines
698-701): `errorData = await response.json().catch(() => ({ error: "HTTP
<status>" })); throw new Error(errorData.detail || errorData.error || "HTTP
<status>")`.  Returns `none` when the response is ok (nothing thrown). -/
def wfDirectOpenError (r : FetchResponse) : Option (List Char) :=
  if respOk r.status then none
  else
    let fallback : List Char := "HTTP ".toList ++ (toString r.status).toList
    let errorData : JSValue :=
      match r.jsonBody with
      | some v => v
      | none => .obj [("error".toList, .str fallback)]
    some (jsToString (jsOr (getProp errorData "detail".toList)
      (jsOr (getProp errorData "error".toList) (.str fallback))))

/-- The direct-mode body of `executeWorkflowWithSSE` (source lines 682-714)
given the opening response and, when the open succeeds, the decoded stream
chunks: the sequence of `onEvent` invocations and the returned/thrown outcome.
The surrounding `try/catch` (lines 709-714) turns a thrown open error into one
`onEvent('error', { error: error.message })` call followed by a rethrow;
on an ok response the reader is handed to `parseSSEEvents` and the call
resolves to `{ success: true }`. -/
def executeWorkflowDirect (r : FetchResponse) (parse : List Char → Option JSValue)
    (chunks : List (List Char)) :
    List (JSValue × JSValue) × Except (List Char) Bool :=
  match wfDirectOpenError r with
  | some msg =>
    ([(.str "error".toList, .obj [("error".toList, .str msg)])], .error msg)
  | none =>
    ((wfRunChunks parse [] "message".toList chunks).2, .ok true)

/-! ### Spec-side comparison functions

The two definitions below are written from the words of the specification and
of the claims, for comparison against the code-derived functions above. -/

/-- Modelled from the claim wording for C2: the remap applies whenever the
parsed object HAS a `type` field (presence, not JS truthiness), mapping the
five known string values and passing any other value through unchanged; then
the action/action_input override.  Compare with `resolveAgent`. -/
def claimResolveC2 (currentEventType : List Char) (data : JSValue) : JSValue :=
  let typeField : Option JSValue :=
    match data with
    | .obj fields => getField fields "type".toList
    | _ => none
  let et : JSValue :=
    if currentEventType == "message".toList then
      match typeField with
      | some (.str s) =>
        match typeMapLookup s with
        | some mapped => .str mapped
        | none => .str s
      | some v => v
      | none => .str currentEventType
    else .str currentEventType
  if strictEqStr et "action".toList &&
      (match typeField with
       | some v => strictEqStr v "action_input".toList
       | none => false) then
    .str "action_input".toList
  else et

/-- Modelled from the amended claim wording for C2: same as `claimResolveC2`
but the remap applies only when the `type` field holds a truthy value — for a
string-valued field, a non-empty one. -/
def specResolveC2 (currentEventType : List Char) (data : JSValue) : JSValue :=
  let et : JSValue :=
    if currentEventType == "message".toList then
      match getProp data "type".toList with
      | .str s =>
        if s != [] then
          match typeMapLookup s with
          | some mapped => .str mapped
          | none => .str s
        else .str currentEventType
      | _ => .str currentEventType
    else .str currentEventType
  if strictEqStr et "action".toList &&
      strictEqStr (getProp data "type".toList) "action_input".toList then
    .str "action_input".toList
  else et

/-- Modelled from the claim wording for C3 (amended): the content delivered in
the normalized payload is the first truthy value among the six source fields in
priority order; when none is truthy it falls back to the original `content`
property of the source object (`undefined` when absent).  Compare with the
`content` field of `normalizePayload`. -/
def specContentC3 (data : JSValue) : JSValue :=
  match (["content", "answer", "message", "thought", "action", "observation"].map
      (fun k => getProp data k.toList)).find? jsTruthy with
  | some v => v
  | none => getProp data "content".toList

/-! ### Concrete streams and oracles used in scenario theorems

Each oracle below is a finite lookup table standing for `JSON.parse` on the
inputs that actually occur in the scenario; every entry is an ordinary
`JSON.parse` fact (the given text parses to the given object). -/

/-- JSON text of an action_input frame body. -/
def jsonActionInput : List Char :=
  "\x7b\"type\": \"action_input\", \"content\": \"x\"\x7d".toList

/-- Its `JSON.parse` value. -/
def valActionInput : JSValue :=
  .obj [("type".toList, .str "action_input".toList), ("content".toList, .str "x".toList)]

/-- JSON text of a final_answer frame body. -/
def jsonFinalAnswer : List Char :=
  "\x7b\"type\":\"final_answer\",\"content\":\"done\"\x7d".toList

/-- Its `JSON.parse` value. -/
def valFinalAnswer : JSValue :=
  .obj [("type".toList, .str "final_answer".toList), ("content".toList, .str "done".toList)]

/-- JSON text of a body with no type and no content field. -/
def jsonSmallA : List Char := "\x7b\"a\": 1\x7d".toList

/-- Its `JSON.parse` value. -/
def valSmallA : JSValue := .obj [("a".toList, .num 1)]

/-- JSON text of a body whose only field is `type: thought`. -/
def jsonThought : List Char := "\x7b\"type\": \"thought\"\x7d".toList

/-- Its `JSON.parse` value. -/
def valThought : JSValue := .obj [("type".toList, .str "thought".toList)]

/-- JSON text of the empty object. -/
def jsonEmptyObj : List Char := "\x7b\x7d".toList

/-- Oracle for the C1 counterexample stream. -/
def parseC1 : List Char → Option JSValue := fun s =>
  if s == jsonActionInput then some valActionInput else none

/-- One chunk holding one frame: `event: action` then the action_input data
line. -/
def chunksC1 : List (List Char) :=
  ["event: action\n".toList ++ "data: ".toList ++ jsonActionInput ++ ['\n']]

/-- Oracle for the C5 witness stream (the malformed line is absent, so it
parses to nothing). -/
def parseC5 : List Char → Option JSValue := fun s =>
  if s == jsonFinalAnswer then some valFinalAnswer else none

/-- The malformed payload from the spec scenario, `(data: )\x7bnot valid
json`. -/
def badJsonTail : List Char := "\x7bnot valid json".toList

/-- Oracle for the C9 and C10 scenario frames. -/
def parseC9 : List Char → Option JSValue := fun s =>
  if s == jsonSmallA then some valSmallA
  else if s == jsonThought then some valThought
  else none

/-- Oracle for the C3 counterexample frame. -/
def parseC3 : List Char → Option JSValue := fun s =>
  if s == jsonEmptyObj then some (.obj []) else none

/-- A payload whose `type` field is present but holds the empty string. -/
def dataEmptyType : JSValue := .obj [("type".toList, .str [])]

/-- A payload with `type: thought` and `content: hi`. -/
def dataThought : JSValue :=
  .obj [("type".toList, .str "thought".toList), ("content".toList, .str "hi".toList)]

/-- A 500 response whose JSON body is `(\x7b)detail: boom(\x7d)`. -/
def respBoom : FetchResponse :=
  ⟨500, some (.obj [("detail".toList, .str "boom".toList)])⟩

/-- The action/action_input fixup as a transformation of an emitted
`(eventType, normalizedData)` pair, reading `data.type` back out of the
normalized payload (which preserves it). -/
def emFixup (e : JSValue × JSValue) : JSValue × JSValue :=
  if strictEqStr e.1 "action".toList &&
      strictEqStr (getProp e.2 "type".toList) "action_input".toList then
    (.str "action_input".toList, e.2)
  else e

/-! ### Lemmas about line reassembly -/

/-- Unfolding lemma for `splitNl1` on a cons cell. -/
theorem splitNl1_cons (c : Char) (cs : List Char) :
    splitNl1 (c :: cs) =
      if c = '\n' then ([] :: (splitNl1 cs).1, (splitNl1 cs).2)
      else
        match (splitNl1 cs).1 with
        | [] => ([], c :: (splitNl1 cs).2)
        | l :: ls => ((c :: l) :: ls, (splitNl1 cs).2) := rfl

/-- Splitting a concatenation: the complete lines of `a ++ b` are those of `a`
followed by those of the leftover buffer of `a` glued to `b`. -/
theorem splitNl1_append (a b : List Char) :
    splitNl1 (a ++ b) =
      ((splitNl1 a).1 ++ (splitNl1 ((splitNl1 a).2 ++ b)).1,
        (splitNl1 ((splitNl1 a).2 ++ b)).2) := by
  induction a with
  | nil => simp [splitNl1]
  | cons c cs ih =>
    by_cases hc : c = '\n'
    · simp [splitNl1_cons, hc, ih]
    · rcases hA : (splitNl1 cs).1 with _ | ⟨l, ls⟩
      · rcases hB : (splitNl1 ((splitNl1 cs).2 ++ b)).1 with _ | ⟨m, ms⟩ <;>
          simp [splitNl1_cons, hc, hA, hB, ih]
      · simp [splitNl1_cons, hc, hA, ih]

/-- The buffer kept by `splitNl1` never contains a newline. -/
theorem splitNl1_snd_no_nl (s : List Char) : '\n' ∉ (splitNl1 s).2 := by
  induction s with
  | nil => simp [splitNl1]
  | cons c cs ih =>
    by_cases hc : c = '\n'
    · simp [splitNl1_cons, hc, ih]
    · rcases hA : (splitNl1 cs).1 with _ | ⟨l, ls⟩ <;>
        simp_all [splitNl1_cons, hc, hA, eq_comm]

/-- A newline-free text yields no complete line and stays in the buffer. -/
theorem splitNl1_of_no_nl (s : List Char) (h : '\n' ∉ s) : splitNl1 s = ([], s) := by
  induction s with
  | nil => simp [splitNl1]
  | cons c cs ih =>
    simp only [List.mem_cons, not_or] at h
    simp [splitNl1_cons, Ne.symm h.1, ih h.2]

/-- No text is lost: re-terminating every complete line and appending the
leftover buffer restores the input. -/
theorem joinLines_splitNl1 (s : List Char) :
    joinLines (splitNl1 s).1 ++ (splitNl1 s).2 = s := by
  induction s with
  | nil => simp [splitNl1, joinLines]
  | cons c cs ih =>
    by_cases hc : c = '\n'
    · simp_all [splitNl1_cons, joinLines]
    · rcases hA : (splitNl1 cs).1 with _ | ⟨l, ls⟩ <;>
        simp_all [splitNl1_cons, joinLines]

/-- The complete lines processed over any chunking equal the complete lines of
the whole input processed as one chunk (generalized over a newline-free carried
buffer). -/
theorem streamLines_eq_whole (chunks : List (List Char)) (buf : List Char)
    (h : '\n' ∉ buf) :
    streamLines buf chunks = (splitNl1 (buf ++ chunks.flatten)).1 := by
  induction chunks generalizing buf with
  | nil => simp [streamLines, splitNl1_of_no_nl buf h]
  | cons ch chs ih =>
    rw [List.flatten_cons, ← List.append_assoc, splitNl1_append]
    simp [streamLines, ih _ (splitNl1_snd_no_nl _)]

/-- Processing a concatenation of line lists threads the state through. -/
theorem agentRunLines_append (parse : List Char → Option JSValue)
    (xs ys : List (List Char)) (cet : List Char) :
    agentRunLines parse cet (xs ++ ys) =
      ((agentRunLines parse (agentRunLines parse cet xs).1 ys).1,
        (agentRunLines parse cet xs).2 ++
          (agentRunLines parse (agentRunLines parse cet xs).1 ys).2) := by
  induction xs generalizing cet with
  | nil => simp [agentRunLines]
  | cons l ls ih => simp [agentRunLines, ih]

/-- The chunked agent-side run emits exactly the events of the line-level run
over the reassembled complete lines. -/
theorem agentRunChunks_eq_lines (parse : List Char → Option JSValue)
    (chunks : List (List Char)) (buf cet : List Char) :
    (agentRunChunks parse buf cet chunks).2 =
      (agentRunLines parse cet (streamLines buf chunks)).2 := by
  induction chunks generalizing buf cet with
  | nil => simp [agentRunChunks, streamLines, agentRunLines]
  | cons ch chs ih =>
    simp [agentRunChunks, streamLines, agentRunLines_append, ih]

/-! ### Lemmas about object building -/

/-- Equation of `getProp` on an object value. -/
theorem getProp_obj (fs : List (List Char × JSValue)) (k : List Char) :
    getProp (.obj fs) k =
      match getField fs k with
      | some w => w
      | none => .undefined := rfl

/-- Looking up the key just assigned returns the assigned value. -/
theorem getField_setField_self (fs : List (List Char × JSValue)) (k : List Char)
    (v : JSValue) : getField (setField fs k v) k = some v := by
  induction fs with
  | nil => simp [setField, getField]
  | cons p ps ih =>
    rcases p with ⟨pk, pv⟩
    cases hp : (pk == k) <;> simp [setField, getField, hp, ih]

/-- Assigning one key does not change the lookup of a different key. -/
theorem getField_setField_ne (fs : List (List Char × JSValue)) (k k' : List Char)
    (v : JSValue) (h : (k' == k) = false) :
    getField (setField fs k v) k' = getField fs k' := by
  have hkk : (k == k') = false := by
    simp only [beq_eq_false_iff_ne] at h ⊢
    exact fun hk => h hk.symm
  induction fs with
  | nil => simp [setField, getField, hkk]
  | cons p ps ih =>
    rcases p with ⟨pk, pv⟩
    cases hp : (pk == k) with
    | true =>
      have hpk : pk = k := by simpa using hp
      simp [setField, getField, hp, hpk, hkk]
    | false => simp [setField, getField, hp, ih]

/-- The `type` field of the normalized payload is the `type` field of the
source object (source line 259 / 606 explicitly preserves it, and the final
`metadata` assignment does not disturb it). -/
theorem getProp_normalizePayload_type (data : JSValue) :
    getProp (normalizePayload data) "type".toList = getProp data "type".toList := by
  unfold normalizePayload
  rw [getProp_obj, getField_setField_ne _ _ _ _ (by decide), getField_setField_self]

/-- The `content` field of the normalized payload is `content || data.content`
from source line 254 / 602 (the five later passthrough assignments use other
keys). -/
theorem getProp_normalizePayload_content (data : JSValue) :
    getProp (normalizePayload data) "content".toList =
      jsOr (extractContent data) (getProp data "content".toList) := by
  unfold normalizePayload
  rw [getProp_obj, getField_setField_ne _ _ _ _ (by decide),
    getField_setField_ne _ _ _ _ (by decide), getField_setField_ne _ _ _ _ (by decide),
    getField_setField_ne _ _ _ _ (by decide), getField_setField_ne _ _ _ _ (by decide),
    getField_setField_self]

/-! ### Relating the two parsers -/

/-- On an actual emission, `emFixup` computes exactly the agent-side
resolution from the workflow-side one. -/
theorem emFixup_emission (cet : List Char) (data : JSValue) :
    emFixup (resolveWf cet data, normalizePayload data) =
      (resolveAgent cet data, normalizePayload data) := by
  unfold emFixup resolveAgent actionInputFixup
  simp only [getProp_normalizePayload_type]
  cases h : (strictEqStr (resolveWf cet data) "action".toList &&
      strictEqStr (getProp data "type".toList) "action_input".toList) <;> simp [h]

/-- The agent-side line step is the workflow-side line step with the fixup
applied to each emitted pair; the resulting states coincide. -/
theorem agentLineStep_eq_wf (parse : List Char → Option JSValue)
    (cet line : List Char) :
    agentLineStep parse cet line =
      ((wfLineStep parse cet line).1, (wfLineStep parse cet line).2.map emFixup) := by
  unfold agentLineStep wfLineStep
  cases he : startsWithL "event: ".toList line
  · cases hd : startsWithL "data: ".toList line
    · simp [he, hd]
    · simp only [he, hd, Bool.false_eq_true, if_false, if_true]
      cases hne : (jsTrim (line.drop 6) != [])
      · simp [hne]
      · simp only [hne, if_true]
        cases hj : (!startsWithL [lbraceChar] (jsTrim (line.drop 6)) &&
            !startsWithL [lbrackChar] (jsTrim (line.drop 6)))
        · simp only [hj, Bool.false_eq_true, if_false]
          rcases hp : parse (jsTrim (line.drop 6)) with _ | data
          · simp
          · simp [emFixup_emission]
        · cases hcn : isConnectNotice (jsTrim (line.drop 6)) <;> simp [hj, hcn]
  · simp [he]

/-- Line-list runs of the two parsers: same final state, emissions related by
the fixup. -/
theorem agentRunLines_eq_wf (parse : List Char → Option JSValue)
    (ls : List (List Char)) (cet : List Char) :
    agentRunLines parse cet ls =
      ((wfRunLines parse cet ls).1, (wfRunLines parse cet ls).2.map emFixup) := by
  induction ls generalizing cet with
  | nil => simp [agentRunLines, wfRunLines]
  | cons l ls ih =>
    simp [agentRunLines, wfRunLines, agentLineStep_eq_wf, ih]

/-- Chunked runs of the two parsers: same final `(buffer, currentEventType)`
state, emissions related by the fixup. -/
theorem agentRunChunks_eq_wf (parse : List Char → Option JSValue)
    (chunks : List (List Char)) (buf cet : List Char) :
    agentRunChunks parse buf cet chunks =
      ((wfRunChunks parse buf cet chunks).1,
        (wfRunChunks parse buf cet chunks).2.map emFixup) := by
  induction chunks generalizing buf cet with
  | nil => simp [agentRunChunks, wfRunChunks]
  | cons ch chs ih =>
    simp [agentRunChunks, wfRunChunks, agentRunLines_eq_wf, ih]

/-! ### Characterizing a data line -/

/-- `startsWithL p l` holds exactly when `l` extends `p`. -/
theorem startsWithL_iff (p l : List Char) :
    startsWithL p l = true ↔ ∃ t, l = p ++ t := by
  induction p generalizing l with
  | nil => simp [startsWithL]
  | cons c cs ih =>
    cases l with
    | nil => simp [startsWithL]
    | cons d ds =>
      simp only [startsWithL, Bool.and_eq_true, beq_iff_eq, ih, List.cons_append,
        List.cons.injEq]
      constructor
      · rintro ⟨rfl, t, rfl⟩
        exact ⟨t, rfl, rfl⟩
      · rintro ⟨t, rfl, rfl⟩
        exact ⟨rfl, t, rfl⟩

/-- Full behavior of the agent-side step on a `data: ` line with remainder
`t`: the state always becomes `"message"`, and an event is emitted exactly
when the trimmed payload is non-empty, looks like JSON, and parses. -/
theorem agentLineStep_data_eq (parse : List Char → Option JSValue)
    (cet t : List Char) :
    agentLineStep parse cet ("data: ".toList ++ t) =
      ("message".toList,
        if jsTrim t != [] then
          if !startsWithL [lbraceChar] (jsTrim t) && !startsWithL [lbrackChar] (jsTrim t) then
            []
          else
            match parse (jsTrim t) with
            | some data => [(resolveAgent cet data, normalizePayload data)]
            | none => []
        else []) := by
  have he : startsWithL "event: ".toList ("data: ".toList ++ t) = false := rfl
  have hd : startsWithL "data: ".toList ("data: ".toList ++ t) = true := by
    rw [startsWithL_iff]
    exact ⟨t, rfl⟩
  have hdrop : ("data: ".toList ++ t).drop 6 = t := rfl
  unfold agentLineStep
  rw [he, hd, hdrop]
  simp only [Bool.false_eq_true, if_false, if_true]
  cases hne : (jsTrim t != [])
  · simp [hne]
  · simp only [hne, if_true]
    cases hj : (!startsWithL [lbraceChar] (jsTrim t) && !startsWithL [lbrackChar] (jsTrim t))
    · rcases hp : parse (jsTrim t) with _ | d <;> simp [hj, hp]
    · cases hcn : isConnectNotice (jsTrim t) <;> simp [hj, hcn]

/-- The instrumented run makes exactly the calls of the pure run, in order,
with the same pairs, whatever the callback does: the `try/catch` around
`onEvent` (source lines 277-281) keeps a throwing callback from influencing
the loop. -/
theorem agentRunLinesCalls_proj (parse : List Char → Option JSValue)
    (onEvent : JSValue → JSValue → Bool) (cet : List Char) (ls : List (List Char)) :
    (agentRunLinesCalls parse onEvent cet ls).1 = (agentRunLines parse cet ls).1 ∧
      (agentRunLinesCalls parse onEvent cet ls).2.map (fun c => (c.1, c.2.1)) =
        (agentRunLines parse cet ls).2 := by
  induction ls generalizing cet with
  | nil => simp [agentRunLinesCalls, agentRunLines]
  | cons l ls ih =>
    have h1 := (ih (agentLineStep parse cet l).1).1
    have h2 := (ih (agentLineStep parse cet l).1).2
    have hid : ((fun c : JSValue × JSValue × Bool => (c.1, c.2.1)) ∘
        fun e : JSValue × JSValue => (e.1, e.2, onEvent e.1 e.2)) = id :=
      funext fun e => rfl
    simp [agentRunLinesCalls, agentRunLines, h1, h2, hid]

/-! ### Shared helper about the content chain -/

/-- A right fold of JS `||` picks the first truthy value, else the default. -/
theorem foldr_jsOr_find (vs : List JSValue) (d : JSValue) :
    vs.foldr jsOr d =
      match vs.find? jsTruthy with
      | some v => v
      | none => d := by
  induction vs with
  | nil => rfl
  | cons v vs ih =>
    cases hv : jsTruthy v <;> simp [List.find?_cons, hv, jsOr, ih]

/-- Cons equation for the agent-side line run. -/
theorem agentRunLines_cons (parse : List Char → Option JSValue)
    (cet l : List Char) (ls : List (List Char)) :
    agentRunLines parse cet (l :: ls) =
      ((agentRunLines parse (agentLineStep parse cet l).1 ls).1,
        (agentLineStep parse cet l).2 ++
          (agentRunLines parse (agentLineStep parse cet l).1 ls).2) := rfl

/-- The message thrown by a failed open when the body parsed as JSON. -/
theorem wfDirectOpenError_some (r : FetchResponse) (b : JSValue)
    (hok : respOk r.status = false) (hb : r.jsonBody = some b) :
    wfDirectOpenError r =
      some (jsToString (jsOr (getProp b "detail".toList)
        (jsOr (getProp b "error".toList)
          (.str ("HTTP ".toList ++ (toString r.status).toList))))) := by
  unfold wfDirectOpenError
  rw [hok, hb]
  rfl

/-- The message thrown by a failed open when the body was not JSON. -/
theorem wfDirectOpenError_none (r : FetchResponse)
    (hok : respOk r.status = false) (hb : r.jsonBody = none) :
    wfDirectOpenError r =
      some (jsToString (jsOr (getProp (.obj [("error".toList,
          .str ("HTTP ".toList ++ (toString r.status).toList))]) "detail".toList)
        (jsOr (getProp (.obj [("error".toList,
          .str ("HTTP ".toList ++ (toString r.status).toList))]) "error".toList)
          (.str ("HTTP ".toList ++ (toString r.status).toList))))) := by
  unfold wfDirectOpenError
  rw [hok, hb]
  rfl

/-! ### Claims -/

/-- C1, counterexample: the claim says the two `parseSSEEvents` cores behave
identically on every chunk sequence.  On the single frame `event: action` /
`data: (a JSON body with type action_input)` the agent-side core emits event
type `action_input` while the workflow-side core emits `action`, because only
the agent-side core has the action/action_input override of source lines
242-244. -/
theorem c1_counterexample :
    (agentRunChunks parseC1 [] "message".toList chunksC1).2.map Prod.fst =
      [.str "action_input".toList] ∧
    (wfRunChunks parseC1 [] "message".toList chunksC1).2.map Prod.fst =
      [.str "action".toList] ∧
    agentRunChunks parseC1 [] "message".toList chunksC1 ≠
      wfRunChunks parseC1 [] "message".toList chunksC1 := by
  refine ⟨rfl, rfl, fun h => ?_⟩
  have ha : (agentRunChunks parseC1 [] "message".toList chunksC1).2.map Prod.fst =
      [JSValue.str "action_input".toList] := rfl
  rw [h, show (wfRunChunks parseC1 [] "message".toList chunksC1).2.map Prod.fst =
      [JSValue.str "action".toList] from rfl] at ha
  simp at ha

/-- C1, amended: for every parse oracle, every chunk sequence and every
starting state, the two `parseSSEEvents` cores end in the same
`(buffer, currentEventType)` state and the agent-side `onEvent` pair sequence
is the workflow-side one with the action/action_input override applied to each
emitted pair; in particular they agree whenever no resolved `action` event
carries a `type: action_input` body. -/
theorem c1_parsers_agree_up_to_fixup (parse : List Char → Option JSValue)
    (chunks : List (List Char)) (buf cet : List Char) :
    agentRunChunks parse buf cet chunks =
      ((wfRunChunks parse buf cet chunks).1,
        (wfRunChunks parse buf cet chunks).2.map emFixup) :=
  agentRunChunks_eq_wf parse chunks buf cet

/-- C2, counterexample: the claim applies the remap whenever the object HAS a
`type` field; the code tests JS truthiness (`data.type &&`), so a present but
empty `type` field is ignored.  On `(a body whose type field is the empty
string)` with `currentEventType = "message"`, the claimed resolution yields the
empty string (pass-through), the code yields `"message"`. -/
theorem c2_counterexample :
    resolveAgent "message".toList dataEmptyType = .str "message".toList ∧
    claimResolveC2 "message".toList dataEmptyType = .str [] ∧
    resolveAgent "message".toList dataEmptyType ≠
      claimResolveC2 "message".toList dataEmptyType := by
  refine ⟨rfl, rfl, fun h => ?_⟩
  have h2 : JSValue.str "message".toList = JSValue.str [] := by
    calc JSValue.str "message".toList
        = resolveAgent "message".toList dataEmptyType := rfl
      _ = claimResolveC2 "message".toList dataEmptyType := h
      _ = JSValue.str [] := rfl
  simp at h2

/-- C2, amended: for every payload whose `type` field is absent or holds a
string, the emitted event type starts from `currentEventType`; when that equals
`"message"` and the `type` field holds a truthy (non-empty) string it is
remapped through the fixed table (thought becomes thinking, the other four map
to themselves, anything else passes through); an explicit non-message event
line suppresses the mapping; finally a resolved `action` with a `type` field
equal to `action_input` is overridden to `action_input`. -/
theorem c2_resolution (cet : List Char) (data : JSValue)
    (h : getProp data "type".toList = .undefined ∨
      ∃ s, getProp data "type".toList = .str s) :
    resolveAgent cet data = specResolveC2 cet data := by
  unfold resolveAgent actionInputFixup resolveWf specResolveC2
  rcases h with h | ⟨s, h⟩
  · rw [h]
    simp [jsTruthy, strictEqStr]
  · rw [h]
    cases hc : (cet == "message".toList) with
    | false => simp [hc]
    | true =>
      cases hs : (s != []) with
      | false => simp [jsTruthy, hc, hs]
      | true =>
        rcases tm : typeMapLookup s with _ | m <;>
          simp [jsTruthy, jsToString, hc, hs, tm]

/-- Witness for C2: on a gateway-mode body with `type: thought` and no event
line, the code and the amended rule agree and both give `thinking`. -/
theorem c2_resolution_witness :
    resolveAgent "message".toList dataThought =
      specResolveC2 "message".toList dataThought ∧
    resolveAgent "message".toList dataThought = .str "thinking".toList :=
  ⟨c2_resolution "message".toList dataThought (Or.inr ⟨"thought".toList, rfl⟩), rfl⟩

/-- C3, counterexample: the claim says the emitted `content` defaults to the
empty string when no source field is present.  The source computes `content:
content || data.content` (line 254), so for the empty object the emitted
`content` property is the JS value `undefined`, not the empty string. -/
theorem c3_counterexample :
    (agentLineStep parseC3 "message".toList ("data: ".toList ++ jsonEmptyObj)).2 =
      [(.str "message".toList, normalizePayload (.obj []))] ∧
    getProp (normalizePayload (.obj [])) "content".toList = .undefined ∧
    getProp (normalizePayload (.obj [])) "content".toList ≠ .str [] := by
  refine ⟨rfl, rfl, fun h => ?_⟩
  rw [show getProp (normalizePayload (.obj [])) "content".toList = JSValue.undefined
    from rfl] at h
  simp at h

/-- C3, amended: for every payload, the `content` field of the normalized
payload is the first truthy value among the source fields `content`, `answer`,
`message`, `thought`, `action`, `observation` in that priority order, and falls
back to the source object's own `content` value (the JS value `undefined` when
absent) when none is truthy; in particular, for a source object with `answer:
A` and `message: B` and no `content` field, the emitted content is `A`. -/
theorem c3_content (data : JSValue) :
    getProp (normalizePayload data) "content".toList = specContentC3 data ∧
    getProp (normalizePayload (.obj [("answer".toList, .str "A".toList),
        ("message".toList, .str "B".toList)])) "content".toList =
      .str "A".toList := by
  refine ⟨?_, rfl⟩
  rw [getProp_normalizePayload_content]
  unfold specContentC3
  simp only [List.map_cons, List.map_nil]
  have hch : extractContent data =
      List.foldr jsOr (.str [])
        [getProp data "content".toList, getProp data "answer".toList,
          getProp data "message".toList, getProp data "thought".toList,
          getProp data "action".toList, getProp data "observation".toList] := rfl
  rw [hch, foldr_jsOr_find]
  rcases hf : List.find? jsTruthy
      [getProp data "content".toList, getProp data "answer".toList,
        getProp data "message".toList, getProp data "thought".toList,
        getProp data "action".toList, getProp data "observation".toList] with _ | v
  · simp [hf, jsOr, jsTruthy]
  · have hv : jsTruthy v = true := List.find?_some hf
    simp [hf, jsOr, hv]

/-- C4: for every input and every chunking of it, the complete lines the
parser processes equal, in order, the newline-terminated lines of the whole
input processed as one chunk; the trailing never-terminated buffer holds
exactly the text after the last newline and is discarded at stream end (the
run only ever processes the complete lines); and the chunked parser run emits
exactly the events of the line-level run over those reassembled lines. -/
theorem c4_line_reassembly :
    (∀ chunks : List (List Char),
      streamLines [] chunks = (splitNl1 chunks.flatten).1) ∧
    (∀ s : List Char,
      joinLines (splitNl1 s).1 ++ (splitNl1 s).2 = s ∧ '\n' ∉ (splitNl1 s).2) ∧
    (∀ (parse : List Char → Option JSValue) (chunks : List (List Char)),
      (agentRunChunks parse [] "message".toList chunks).2 =
        (agentRunLines parse "message".toList (streamLines [] chunks)).2) := by
  refine ⟨?_, fun s => ⟨joinLines_splitNl1 s, splitNl1_snd_no_nl s⟩, ?_⟩
  · intro chunks
    simpa using streamLines_eq_whole chunks [] (by simp)
  · intro parse chunks
    exact agentRunChunks_eq_lines parse chunks [] "message".toList

/-- C5: a data line whose JSON-looking payload fails to parse emits nothing
and does not abort the run — the remaining lines are processed exactly as if
the stream had started there (in the reset state) — and, whatever the
`onEvent` callback does (including throwing, which the source catches), the
calls made are exactly the emission pairs, so a handler exception never
suppresses later events. -/
theorem c5_error_containment (parse : List Char → Option JSValue)
    (cet t : List Char) (rest : List (List Char))
    (onEvent : JSValue → JSValue → Bool)
    (hne : (jsTrim t != []) = true)
    (hbrace : startsWithL [lbraceChar] (jsTrim t) = true)
    (hfail : parse (jsTrim t) = none) :
    (agentLineStep parse cet ("data: ".toList ++ t)).2 = [] ∧
    agentRunLines parse cet (("data: ".toList ++ t) :: rest) =
      agentRunLines parse "message".toList rest ∧
    (agentRunLinesCalls parse onEvent cet (("data: ".toList ++ t) :: rest)).2.map
        (fun c => (c.1, c.2.1)) =
      (agentRunLines parse cet (("data: ".toList ++ t) :: rest)).2 := by
  have hstep : agentLineStep parse cet ("data: ".toList ++ t) =
      ("message".toList, []) := by
    rw [agentLineStep_data_eq]
    simp [hne, hbrace, hfail]
  refine ⟨by rw [hstep], ?_, (agentRunLinesCalls_proj parse onEvent cet _).2⟩
  rw [agentRunLines_cons, hstep]
  simp

/-- Witness for C5: the spec scenario — `data: (an unparseable body)` followed
by a valid final_answer line still emits the second event. -/
theorem c5_witness :
    agentRunLines parseC5 "message".toList
        [("data: ".toList ++ badJsonTail), ("data: ".toList ++ jsonFinalAnswer)] =
      agentRunLines parseC5 "message".toList
        [("data: ".toList ++ jsonFinalAnswer)] ∧
    (agentRunLines parseC5 "message".toList
        [("data: ".toList ++ jsonFinalAnswer)]).2.map Prod.fst =
      [.str "final_answer".toList] := by
  refine ⟨?_, rfl⟩
  exact (c5_error_containment parseC5 "message".toList badJsonTail
    [("data: ".toList ++ jsonFinalAnswer)] (fun _ _ => true) rfl rfl rfl).2.1

/-- C6: on a non-success opening response the parse loop never runs and the
caller sees exactly one `onEvent("error", payload)` call whose `error` field
is the response body's `detail` when that is a non-empty string, else its
`error` field, else the generic `HTTP (status)` string (also used when the
body is not JSON), and the awaited call rejects with that same message. -/
theorem c6_open_failure (r : FetchResponse) (parse : List Char → Option JSValue)
    (chunks : List (List Char)) (hok : respOk r.status = false) :
    (∃ m, executeWorkflowDirect r parse chunks =
      ([(.str "error".toList, .obj [("error".toList, .str m)])], .error m)) ∧
    (∀ b s, r.jsonBody = some b → getProp b "detail".toList = .str s → s ≠ [] →
      executeWorkflowDirect r parse chunks =
        ([(.str "error".toList, .obj [("error".toList, .str s)])], .error s)) ∧
    (∀ b s, r.jsonBody = some b → getProp b "detail".toList = .undefined →
      getProp b "error".toList = .str s → s ≠ [] →
      executeWorkflowDirect r parse chunks =
        ([(.str "error".toList, .obj [("error".toList, .str s)])], .error s)) ∧
    (r.jsonBody = none →
      executeWorkflowDirect r parse chunks =
        ([(.str "error".toList, .obj [("error".toList,
            .str ("HTTP ".toList ++ (toString r.status).toList))])],
          .error ("HTTP ".toList ++ (toString r.status).toList))) := by
  refine ⟨?_, ?_, ?_, ?_⟩
  · rcases hmsg : wfDirectOpenError r with _ | m
    · exfalso
      unfold wfDirectOpenError at hmsg
      rw [hok] at hmsg
      simp at hmsg
    · exact ⟨m, by unfold executeWorkflowDirect; rw [hmsg]⟩
  · intro b s hb hd hs
    have hsne : (s != []) = true := by simpa using hs
    have hmsg : wfDirectOpenError r = some s := by
      rw [wfDirectOpenError_some r b hok hb, hd]
      simp [jsOr, jsTruthy, jsToString, hsne]
    unfold executeWorkflowDirect
    rw [hmsg]
  · intro b s hb hd he hs
    have hsne : (s != []) = true := by simpa using hs
    have hmsg : wfDirectOpenError r = some s := by
      rw [wfDirectOpenError_some r b hok hb, hd, he]
      simp [jsOr, jsTruthy, jsToString, hsne]
    unfold executeWorkflowDirect
    rw [hmsg]
  · intro hb
    have h1 : getProp (.obj [("error".toList,
        .str ("HTTP ".toList ++ (toString r.status).toList))]) "detail".toList =
        .undefined := rfl
    have h2 : getProp (.obj [("error".toList,
        .str ("HTTP ".toList ++ (toString r.status).toList))]) "error".toList =
        .str ("HTTP ".toList ++ (toString r.status).toList) := rfl
    have h3 : (("HTTP ".toList ++ (toString r.status).toList) != []) = true := rfl
    have hmsg : wfDirectOpenError r =
        some ("HTTP ".toList ++ (toString r.status).toList) := by
      rw [wfDirectOpenError_none r hok hb, h1, h2]
      simp [jsOr, jsTruthy, jsToString, h3]
    unfold executeWorkflowDirect
    rw [hmsg]

/-- Witness for C6: status 500 with JSON body `detail: boom` yields exactly
one `("error", (error: boom))` invocation and the call rejects with `boom`. -/
theorem c6_witness :
    respOk respBoom.status = false ∧
    executeWorkflowDirect respBoom (fun _ => none) [] =
      ([(.str "error".toList, .obj [("error".toList, .str "boom".toList)])],
        .error "boom".toList) :=
  ⟨rfl, (c6_open_failure respBoom (fun _ => none) [] rfl).2.1
    (.obj [("detail".toList, .str "boom".toList)]) "boom".toList rfl rfl (by decide)⟩

/-- C7: a data line whose non-empty trimmed payload does not look like JSON
(neither brace nor bracket first) emits no event, resets `currentEventType` to
`"message"` — both when it is a connection notice and when it is skipped — and
the stream simply continues with the remaining lines. -/
theorem c7_non_json (parse : List Char → Option JSValue) (cet t : List Char)
    (rest : List (List Char))
    (hne : (jsTrim t != []) = true)
    (hbrace : startsWithL [lbraceChar] (jsTrim t) = false)
    (hbrack : startsWithL [lbrackChar] (jsTrim t) = false) :
    (agentLineStep parse cet ("data: ".toList ++ t)).2 = [] ∧
    (agentLineStep parse cet ("data: ".toList ++ t)).1 = "message".toList ∧
    agentRunLines parse cet (("data: ".toList ++ t) :: rest) =
      agentRunLines parse "message".toList rest := by
  have hstep : agentLineStep parse cet ("data: ".toList ++ t) =
      ("message".toList, []) := by
    rw [agentLineStep_data_eq]
    simp [hne, hbrace, hbrack]
  refine ⟨by rw [hstep], by rw [hstep], ?_⟩
  rw [agentRunLines_cons, hstep]
  simp

/-- Witness for C7: the data line `data: Connected` emits nothing and resets
the state to `"message"`. -/
theorem c7_witness :
    (agentLineStep (fun _ => none) "workflow_started".toList
        ("data: ".toList ++ "Connected".toList)).2 = [] ∧
    (agentLineStep (fun _ => none) "workflow_started".toList
        ("data: ".toList ++ "Connected".toList)).1 = "message".toList := by
  have h := c7_non_json (fun _ => none) "workflow_started".toList
    "Connected".toList [] rfl rfl rfl
  exact ⟨h.1, h.2.1⟩

/-- C8, counterexample: the claim says an empty data payload leaves the parser
state unchanged.  The source falls through to the unconditional reset at line
295, so after `data: ` (empty payload) a previously set `currentEventType`
of `foo` becomes `message`, not `foo`. -/
theorem c8_counterexample :
    (agentLineStep (fun _ => none) "foo".toList "data: ".toList).1 =
      "message".toList ∧
    (agentLineStep (fun _ => none) "foo".toList "data: ".toList).2 = [] ∧
    "message".toList ≠ "foo".toList := ⟨rfl, rfl, by decide⟩

/-- C8, amended: a data line whose trimmed payload is empty emits no event and
resets `currentEventType` to `"message"` (rather than leaving it unchanged). -/
theorem c8_empty_data (parse : List Char → Option JSValue) (cet t : List Char)
    (hne : (jsTrim t != []) = false) :
    agentLineStep parse cet ("data: ".toList ++ t) = ("message".toList, []) := by
  rw [agentLineStep_data_eq]
  simp [hne]

/-- Witness for C8: the line `data: ` with state `foo`. -/
theorem c8_witness :
    agentLineStep (fun _ => none) "foo".toList ("data: ".toList ++ []) =
      ("message".toList, []) :=
  c8_empty_data (fun _ => none) "foo".toList [] rfl

/-- C9: after the agent-side parser finishes any complete `data: ` line —
empty, non-JSON, unparseable or emitted — `currentEventType` is `"message"`;
hence in the two-frame scenario `event: foo` / `data: (body with no type)`
then `data: (body with type thought)`, the first frame emits `foo` and the
second resolves from `message` (here to `thinking`). -/
theorem c9_reset_invariant (parse : List Char → Option JSValue)
    (cet line : List Char)
    (h : startsWithL "data: ".toList line = true) :
    (agentLineStep parse cet line).1 = "message".toList ∧
    (agentRunLines parseC9 "message".toList
        ["event: foo".toList, "data: ".toList ++ jsonSmallA,
          "data: ".toList ++ jsonThought]).2.map Prod.fst =
      [.str "foo".toList, .str "thinking".toList] := by
  constructor
  · obtain ⟨t, rfl⟩ := (startsWithL_iff _ _).mp h
    rw [agentLineStep_data_eq]
  · rfl

/-- Witness for C9: a concrete non-JSON data line processed in state `foo`
ends in state `message`. -/
theorem c9_witness :
    (agentLineStep (fun _ => none) "foo".toList "data: hello".toList).1 =
      "message".toList :=
  (c9_reset_invariant (fun _ => none) "foo".toList "data: hello".toList rfl).1

/-- C10: an explicit `event: message` line is indistinguishable from an absent
event line: prepending it to any stream suffix (from the reset state every
frame starts in) changes nothing, and a following `type: thought` body
resolves through the gateway fallback to `thinking`, exactly as without the
event line. -/
theorem c10_event_message_transparent :
    (∀ (parse : List Char → Option JSValue) (rest : List (List Char)),
      agentRunLines parse "message".toList ("event: message".toList :: rest) =
        agentRunLines parse "message".toList rest) ∧
    agentRunLines parseC9 "message".toList
        ["event: message".toList, "data: ".toList ++ jsonThought] =
      agentRunLines parseC9 "message".toList ["data: ".toList ++ jsonThought] ∧
    (agentRunLines parseC9 "message".toList
        ["data: ".toList ++ jsonThought]).2.map Prod.fst =
      [.str "thinking".toList] := by
  refine ⟨?_, ?_, rfl⟩
  · intro parse rest
    have hstep : agentLineStep parse "message".toList "event: message".toList =
        ("message".toList, []) := rfl
    rw [agentRunLines_cons, hstep]
    simp
  · rfl
